import Mathlib

/-!
Verification development for the Gensyn verification bot's reconciliation engine.

The definitions below are a shallow embedding of the JavaScript sources:
  * src/services/database.js        (link store and verification records)
  * src/services/gensynApi.js       (ExplorerApiService: fetch/retry/cache and
                                     per-contract verification)
  * src/commands/verify.js          (the explicit verify command's result loop)
  * src/commands/link.js            (address-format validation before linking)
  * src/workers/autoVerify.js       (the scheduled batch run)
  * src/config/config.js            (configured limits)

JavaScript objects used as string-keyed maps are modelled as association lists
with first-match lookup and in-place replacement; JS `undefined`/`null` become
`Option`; JS string falsiness (`x || d`) is modelled explicitly; timestamps are
opaque strings or `Nat` milliseconds.  Asynchronous calls are sequentialized:
each network attempt is an oracle `Nat → Attempt` giving the outcome of the
i-th attempt.
-/

namespace GensynBot

/-- JS `String.prototype.toLowerCase` on the character list of the string. -/
def toLowerStr (s : String) : String := ⟨s.data.map Char.toLower⟩

/-- First-match lookup in a JS-object-as-map (`obj[k]`). -/
def getKey {α : Type} : List (String × α) → String → Option α
  | [], _ => none
  | (k', v) :: rest, k => if k' = k then some v else getKey rest k

/-- JS property assignment `obj[k] = v`: replace the first binding of `k`,
or append a fresh binding when `k` is absent. -/
def setKey {α : Type} : List (String × α) → String → α → List (String × α)
  | [], k, v => [(k, v)]
  | (k', v') :: rest, k, v =>
    if k' = k then (k, v) :: rest else (k', v') :: setKey rest k v

/-- JS `o || d` for an optional string: `undefined`, `null` and `""` are falsy. -/
def strOr (o : Option String) (d : String) : String :=
  match o with
  | some s => if s = "" then d else s
  | none => d

/-- One per-contract verification record, as written by
`database.recordVerification` into `data[wallet].verifications[contractId]`. -/
structure Verification where
  verified : Bool
  txHash : Option String
  blockNumber : Option String
  txnCount : Nat
  verifiedAt : String
deriving Repr, DecidableEq

/-- One user row of the JSON database (`data[wallet]` in database.js). -/
structure UserRec where
  discordId : String
  discordUsername : Option String
  discordTag : Option String
  linkedAt : String
  lastCheckedAt : Option String
  attempts : Nat
  roles : List String
  verifications : List (String × Verification)
deriving Repr, DecidableEq

/-- The durable store: wallet (lowercased) to user row, as in `this.data`. -/
abbrev Db := List (String × UserRec)

/-- Result object of `database.linkWallet`. -/
structure LinkOutcome where
  success : Bool
  error : Option String
  existingWallet : Option String
deriving Repr, DecidableEq

/-- Embeds `database.getWalletByDiscordId`: first wallet whose row carries the id. -/
def getWalletByDiscordId (db : Db) (discordId : String) : Option String :=
  (db.find? (fun p => p.2.discordId == discordId)).map (fun p => p.1)

/-- Embeds `database.linkWallet(discordId, walletAddress, username, tag)`.
Returns the JS result object, the store afterwards, and whether `save()`
(the only disk write of this method) ran.  The second guard mirrors JS
truthiness: `if (existingWallet)` treats the empty string as no wallet. -/
def linkWallet (db : Db) (discordId walletAddress : String)
    (discordUsername discordTag : Option String) (now : String) :
    LinkOutcome × Db × Bool :=
  let normalized := toLowerStr walletAddress
  if db.any (fun p => p.1 == normalized && p.2.discordId != discordId) then
    ({ success := false, error := some "Wallet already linked to another user",
       existingWallet := none }, db, false)
  else
    let existingWallet := getWalletByDiscordId db discordId
    if (existingWallet.getD "") == "" then
      let u : UserRec :=
        { discordId := discordId, discordUsername := discordUsername,
          discordTag := discordTag, linkedAt := now, lastCheckedAt := none,
          attempts := 0, roles := [], verifications := [] }
      ({ success := true, error := none, existingWallet := none },
        setKey db normalized u, true)
    else
      ({ success := false, error := some "You already have a wallet linked",
         existingWallet := existingWallet }, db, false)

/-- Hex-digit test of the link command's address regex. -/
def isHexChar (c : Char) : Bool :=
  c.isDigit || ('a' ≤ c && c ≤ 'f') || ('A' ≤ c && c ≤ 'F')

/-- The `/link` command's format guard: regex `^0x[a-fA-F0-9]\x7b40\x7d$`
(src/commands/link.js). -/
def isValidWalletFormat (s : String) : Bool :=
  s.startsWith "0x" && s.length == 42 && (s.drop 2).data.all isHexChar

/-- The `/link` command path: reject malformed addresses before they reach
`database.linkWallet` (src/commands/link.js). -/
def linkCommand (db : Db) (discordId wallet : String)
    (discordUsername discordTag : Option String) (now : String) :
    LinkOutcome × Db × Bool :=
  if isValidWalletFormat wallet then
    linkWallet db discordId wallet discordUsername discordTag now
  else
    ({ success := false, error := some "Invalid address format",
       existingWallet := none }, db, false)

/-- Embeds `database.recordVerification`: upgrade the per-contract record to
`verified: true`, remember the role id, and stamp `lastCheckedAt`.  The JS
`roleName` argument is only used for logging and is omitted.  Returns `false`
and leaves the store unchanged when the wallet row is absent. -/
def recordVerification (db : Db) (walletAddress contractId : String)
    (txHash blockNumber : Option String) (roleId : Option String)
    (txnCount : Nat) (now : String) : Bool × Db :=
  let normalized := toLowerStr walletAddress
  match getKey db normalized with
  | none => (false, db)
  | some u =>
      let v : Verification :=
        { verified := true, txHash := txHash, blockNumber := blockNumber,
          txnCount := txnCount, verifiedAt := now }
      let roles1 : List String :=
        match roleId with
        | some r => if u.roles.contains r then u.roles else u.roles ++ [r]
        | none => u.roles
      let u1 : UserRec :=
        { u with verifications := setKey u.verifications contractId v,
                 roles := roles1, lastCheckedAt := some now }
      (true, setKey db normalized u1)

/-- Embeds `database.isVerified`: `user.verifications[contractId]?.verified === true`. -/
def isVerified (db : Db) (walletAddress contractId : String) : Bool :=
  match getKey db (toLowerStr walletAddress) with
  | none => false
  | some u =>
      match getKey u.verifications contractId with
      | none => false
      | some v => v.verified

/-- Embeds `database.updateLastChecked`. -/
def updateLastChecked (db : Db) (walletAddress : String) (now : String) : Db :=
  match getKey db (toLowerStr walletAddress) with
  | none => db
  | some u => setKey db (toLowerStr walletAddress) { u with lastCheckedAt := some now }

/-- Embeds `database.updateUserInfo`. -/
def updateUserInfo (db : Db) (walletAddress : String)
    (discordUsername discordTag : String) : Bool × Db :=
  let normalized := toLowerStr walletAddress
  match getKey db normalized with
  | none => (false, db)
  | some u =>
      (true, setKey db normalized
        { u with discordUsername := some discordUsername,
                 discordTag := some discordTag })

/-- Embeds `database.addUserRole`. -/
def addUserRole (db : Db) (walletAddress roleId : String) : Bool × Db :=
  let normalized := toLowerStr walletAddress
  match getKey db normalized with
  | none => (false, db)
  | some u =>
      if u.roles.contains roleId then (true, db)
      else (true, setKey db normalized { u with roles := u.roles ++ [roleId] })

/-- Embeds `database.incrementAttempts`. -/
def incrementAttempts (db : Db) (walletAddress : String) : Db :=
  let normalized := toLowerStr walletAddress
  match getKey db normalized with
  | none => db
  | some u => setKey db normalized { u with attempts := u.attempts + 1 }

/-- Embeds `db.removeUser` as invoked by the admin unlink command: drop the wallet's
entire record set. -/
def removeUser (db : Db) (walletAddress : String) : Db :=
  db.filter (fun p => p.1 != toLowerStr walletAddress)

/-- One configured contract target (config.js, `config.contracts[i]`). -/
structure Contract where
  id : String
  name : String
  address : String
  roleId : String
deriving Repr, DecidableEq

/-- One internal transaction as returned by the explorer API. -/
structure Tx where
  toAddr : Option String
  fromAddr : Option String
  contractAddress : Option String
  transactionHash : Option String
  hash : Option String
  blockNumber : Option String
deriving Repr, DecidableEq

/-- Embeds `getMatchingTransactions`: keep transactions whose `to`, `from` or
`contractAddress` equals the contract address (all lowercased, absent
fields read as `""`). -/
def getMatchingTransactions (transactions : List Tx) (contractAddress : String) :
    List Tx :=
  let normalizedContract := toLowerStr contractAddress
  transactions.filter (fun tx =>
    toLowerStr (tx.toAddr.getD "") == normalizedContract ||
    toLowerStr (tx.fromAddr.getD "") == normalizedContract ||
    toLowerStr (tx.contractAddress.getD "") == normalizedContract)

/-- Embeds `countTransactionsForContract`: number of unique non-null, non-empty
parent transaction hashes among the matching transactions (`new Set(...)`). -/
def countTransactionsForContract (transactions : List Tx)
    (contractAddress : String) : Nat :=
  ((((getMatchingTransactions transactions contractAddress).filterMap
      (fun tx => tx.transactionHash)).filter (fun h => h != "")).eraseDups).length

/-- Result of `getInternalTransactions` handed to the verifiers:
`{success, transactions, error?}`. -/
structure FetchResult where
  success : Bool
  transactions : List Tx
  error : Option String
deriving Repr, DecidableEq

/-- Per-contract verification result object produced by
`verifySingleContract` / `verifyAllContracts`. -/
structure VerifyResult where
  success : Bool
  contractId : String
  contractName : String
  contractAddress : String
  roleId : String
  txnCount : Nat
  error : Option String
  hash : Option String
  blockNumber : Option String
deriving Repr, DecidableEq

/-- Embeds `verifySingleContract(wallet, contract)` given the outcome of its
`getInternalTransactions` call.  Mirrors the three branches of the source:
fetch failure, count below threshold, success. -/
def verifySingleContract (fetch : FetchResult) (contract : Contract)
    (minTxns : Nat) : VerifyResult :=
  if fetch.success = false then
    { success := false, contractId := contract.id, contractName := contract.name,
      contractAddress := contract.address, roleId := contract.roleId,
      txnCount := 0, error := some (strOr fetch.error "API error - retry later"),
      hash := none, blockNumber := none }
  else
    let txnCount := countTransactionsForContract fetch.transactions contract.address
    let contractTxns := getMatchingTransactions fetch.transactions contract.address
    if txnCount < minTxns then
      { success := false, contractId := contract.id, contractName := contract.name,
        contractAddress := contract.address, roleId := contract.roleId,
        txnCount := txnCount,
        error := some (if txnCount = 0 then "No transactions found"
          else "Only " ++ toString txnCount ++ " txns found (min " ++
               toString minTxns ++ " required)"),
        hash := none, blockNumber := none }
    else
      let latestTxn := contractTxns.head?
      let txHash :=
        strOr (latestTxn.bind (fun t => t.hash))
          (strOr (latestTxn.bind (fun t => t.transactionHash)) "N/A")
      let blockNumber := strOr (latestTxn.bind (fun t => t.blockNumber)) "N/A"
      { success := true, contractId := contract.id, contractName := contract.name,
        contractAddress := contract.address, roleId := contract.roleId,
        txnCount := txnCount, error := none, hash := some txHash,
        blockNumber := some blockNumber }

/-- Embeds `verifyAllContracts`: one shared fetch, then the same per-contract
branching as `verifySingleContract` mapped over the configured contracts
(the source duplicates the branch bodies verbatim). -/
def verifyAllContracts (fetch : FetchResult) (contracts : List Contract)
    (minTxns : Nat) : List VerifyResult :=
  contracts.map (fun contract => verifySingleContract fetch contract minTxns)

/-- Parsed JSON payload of one explorer API response. -/
structure ApiPayload where
  status : String
  message : Option String
  result : Option (List Tx)
deriving Repr, DecidableEq

/-- Outcome of the i-th network attempt inside `fetchWithRetry`:
an OK response whose body parses, a non-OK HTTP status, or a thrown
error (timeout, connection failure, malformed body). -/
inductive Attempt where
  | success (payload : ApiPayload)
  | httpError (code : Nat)
  | exn (message : String)
deriving Repr, DecidableEq

/-- The list `RETRIABLE_STATUS_CODES = [502, 503, 504, 429]`. -/
def RETRIABLE_STATUS_CODES : List Nat := [502, 503, 504, 429]

/-- What `fetchWithRetry` hands back to its caller: the parsed payload, a
thrown error, or `undefined` when the loop runs out of attempts without
returning or throwing. -/
inductive FetchRetryOutcome where
  | ok (payload : ApiPayload)
  | thrown (message : String)
  | exhausted
deriving Repr, DecidableEq

/-- The `for (let i = 0; i < retries; i++)` body of `fetchWithRetry`.
`i` is the loop index, `rem` the remaining iterations (`retries - i`).
On a retriable status the code sleeps `2^i * 1000` ms and continues; any
other failure is thrown, caught by the loop's own `catch`, and retried
with the same backoff unless this was the last iteration.  A second
component collects the backoff delays in order. -/
def fetchRetryGo (attempts : Nat → Attempt) :
    Nat → Nat → FetchRetryOutcome × List Nat
  | _, 0 => (.exhausted, [])
  | i, rem + 1 =>
    match attempts i with
    | .success payload => (.ok payload, [])
    | .httpError code =>
        if RETRIABLE_STATUS_CODES.contains code then
          let r := fetchRetryGo attempts (i + 1) rem
          (r.1, 2 ^ i * 1000 :: r.2)
        else if rem = 0 then
          (.thrown ("API error: " ++ toString code), [])
        else
          let r := fetchRetryGo attempts (i + 1) rem
          (r.1, 2 ^ i * 1000 :: r.2)
    | .exn message =>
        if rem = 0 then (.thrown message, [])
        else
          let r := fetchRetryGo attempts (i + 1) rem
          (r.1, 2 ^ i * 1000 :: r.2)

/-- Embeds `fetchWithRetry(url, retries)` (default `retries = 3` at every call site). -/
def fetchWithRetry (attempts : Nat → Attempt) (retries : Nat) :
    FetchRetryOutcome × List Nat :=
  fetchRetryGo attempts 0 retries

/-- A `this.cache` entry `{data, timestamp}`; `data = none` models the JS
value `undefined` stored when `fetchWithRetry` returned nothing. -/
structure CacheEntry where
  data : Option ApiPayload
  timestamp : Nat
deriving Repr, DecidableEq

/-- The in-memory URL cache of ExplorerApiService. -/
abbrev Cache := List (String × CacheEntry)

/-- Embeds `fetchWithCache(url)`: serve a fresh-enough entry, otherwise run
`fetchWithRetry` and store whatever it returned under the url; a thrown
error propagates and stores nothing. -/
def fetchWithCache (cache : Cache) (url : String) (now ttl : Nat)
    (attempts : Nat → Attempt) (retries : Nat) :
    Except String (Option ApiPayload) × Cache :=
  let fetchAndStore : Except String (Option ApiPayload) × Cache :=
    match fetchWithRetry attempts retries with
    | (.ok payload, _) =>
        (.ok (some payload), setKey cache url { data := some payload, timestamp := now })
    | (.exhausted, _) =>
        (.ok none, setKey cache url { data := none, timestamp := now })
    | (.thrown message, _) => (.error message, cache)
  match getKey cache url with
  | some entry =>
      if now - entry.timestamp < ttl then (.ok entry.data, cache) else fetchAndStore
  | none => fetchAndStore

/-- Embeds `getWalletInternalTransactions`: interpret the payload from
`fetchWithCache`; a `data.status` read on an `undefined` payload raises the
Node TypeError caught by the surrounding `catch`. -/
def getWalletInternalTransactions (cache : Cache) (url : String) (now ttl : Nat)
    (attempts : Nat → Attempt) (retries : Nat) : FetchResult × Cache :=
  match fetchWithCache cache url now ttl attempts retries with
  | (.error message, c1) =>
      ({ success := false, transactions := [], error := some message }, c1)
  | (.ok none, c1) =>
      ({ success := false, transactions := [],
         error := some "Cannot read properties of undefined (reading 'status')" }, c1)
  | (.ok (some payload), c1) =>
      if payload.status == "0" && payload.message == some "No transactions found" then
        ({ success := true, transactions := [], error := none }, c1)
      else if payload.status != "1" then
        ({ success := false, transactions := [],
           error := some (strOr payload.message "Unknown API error") }, c1)
      else
        ({ success := true, transactions := payload.result.getD [], error := none }, c1)

/-- Entry of the verify command's `alreadyVerified` list. -/
structure AlreadyEntry where
  name : String
  roleName : String
  hasRole : Bool
  txnCount : Nat
deriving Repr, DecidableEq

/-- Entry of the verify command's `newlyVerified` list. -/
structure NewEntry where
  name : String
  role : String
  txHash : Option String
  txnCount : Nat
  isNew : Bool
  error : Option String
deriving Repr, DecidableEq

/-- Entry of the verify command's `failedVerifications` list. -/
structure FailedEntry where
  name : String
  error : Option String
  txnCount : Nat
deriving Repr, DecidableEq

/-- State threaded through the verify command's result loop: the durable
store, the member's Discord role ids, and the three classification lists. -/
structure ExecState where
  db : Db
  memberRoles : List String
  newlyVerified : List NewEntry
  alreadyVerified : List AlreadyEntry
  failedVerifications : List FailedEntry
deriving Repr, DecidableEq

/-- One iteration of the `for (const result of results)` loop in the verify
command (src/commands/verify.js).  `guildRoles` maps role ids to names
(the guild role cache); `roleAddOk` tells whether `member.roles.add`
succeeds or throws (the `roleError` catch). -/
def execStep (guildRoles : List (String × String)) (wallet now : String)
    (roleAddOk : Bool) (st : ExecState) (r : VerifyResult) : ExecState :=
  if isVerified st.db wallet r.contractId then
    let roleName := strOr (getKey guildRoles r.roleId) r.contractName
    { st with alreadyVerified := st.alreadyVerified ++
        [{ name := r.contractName, roleName := roleName,
           hasRole := st.memberRoles.contains r.roleId, txnCount := r.txnCount }] }
  else if r.success then
    let roleExists := (getKey guildRoles r.roleId).isSome
    let roleName := strOr (getKey guildRoles r.roleId) r.contractName
    let db1 := (recordVerification st.db wallet r.contractId r.hash r.blockNumber
        (some r.roleId) r.txnCount now).2
    if roleExists && !(st.memberRoles.contains r.roleId) then
      if roleAddOk then
        { st with
          db := db1,
          memberRoles := st.memberRoles ++ [r.roleId],
          newlyVerified := st.newlyVerified ++
            [{ name := r.contractName, role := roleName, txHash := r.hash,
               txnCount := r.txnCount, isNew := true, error := none }] }
      else
        { st with
          db := db1,
          newlyVerified := st.newlyVerified ++
            [{ name := r.contractName, role := roleName, txHash := r.hash,
               txnCount := r.txnCount, isNew := false,
               error := some "Failed to assign role" }] }
    else if st.memberRoles.contains r.roleId then
      { st with
        db := db1,
        newlyVerified := st.newlyVerified ++
          [{ name := r.contractName, role := roleName, txHash := r.hash,
             txnCount := r.txnCount, isNew := false, error := none }] }
    else
      { st with db := db1 }
  else
    { st with failedVerifications := st.failedVerifications ++
        [{ name := r.contractName, error := r.error, txnCount := r.txnCount }] }

/-- The verify command's whole result loop over `results`. -/
def execVerify (guildRoles : List (String × String)) (wallet now : String)
    (roleAddOk : Bool) (db : Db) (memberRoles : List String)
    (results : List VerifyResult) : ExecState :=
  results.foldl (execStep guildRoles wallet now roleAddOk)
    { db := db, memberRoles := memberRoles, newlyVerified := [],
      alreadyVerified := [], failedVerifications := [] }

/-- Rendering of one `failedVerifications` entry in the reply embed's single
"❌ Not Verified" field. -/
def renderFailedEntry (e : FailedEntry) : String :=
  "**" ++ e.name ++ "**: " ++ (e.error.getD "undefined") ++ " (" ++
    toString e.txnCount ++ " txns found)"

/-- The embed field name under which every failed outcome is listed. -/
def failedFieldName : String := "❌ Not Verified"

/-- Rendering of one `alreadyVerified` entry in the "📋 Previously Verified"
field; a missing role shows the repair tag. -/
def renderAlreadyEntry (a : AlreadyEntry) : String :=
  "**" ++ a.name ++ "** → " ++ a.roleName ++ " " ++
    (if a.hasRole then "✅" else "⚠️ (Role missing)") ++ " (" ++
    toString a.txnCount ++ " txns)"

/-- Counters aggregated by `autoVerify.processUser`; `rolesAttempted` records
the role ids for which `assignRole` was invoked. -/
structure ProcessCounts where
  newVerifications : Nat
  failedVerifications : Nat
  rolesAttempted : List String
deriving Repr, DecidableEq

/-- One iteration of the result loop in `autoVerify.processUser`
(src/workers/autoVerify.js): record-and-grant for fresh successes, count a
failure for fresh failures, skip anything already verified. -/
def processUserStep (wallet now : String) (acc : ProcessCounts × Db)
    (r : VerifyResult) : ProcessCounts × Db :=
  let counts := acc.1
  let db := acc.2
  if r.success && !(isVerified db wallet r.contractId) then
    let db1 := (recordVerification db wallet r.contractId r.hash r.blockNumber
        (some r.roleId) r.txnCount now).2
    ({ counts with
       newVerifications := counts.newVerifications + 1,
       rolesAttempted := counts.rolesAttempted ++ [r.roleId] }, db1)
  else if !r.success && !(isVerified db wallet r.contractId) then
    ({ counts with failedVerifications := counts.failedVerifications + 1 }, db)
  else
    acc

/-- Embeds `autoVerify.processUser` on one user's verification results, finishing
with `updateLastChecked` as the source does. -/
def processUser (db : Db) (wallet now : String) (results : List VerifyResult) :
    ProcessCounts × Db :=
  let acc := results.foldl (processUserStep wallet now)
    ({ newVerifications := 0, failedVerifications := 0, rolesAttempted := [] }, db)
  (acc.1, updateLastChecked acc.2 wallet now)

/-- Fuel-driven worker for `createBatches`; the fuel (initially the list
length) dominates the number of loop iterations for any batch size of at
least one, so the exhaustion arm is never reached in configured runs. -/
def createBatchesGo {α : Type} (batchSize : Nat) : Nat → List α → List (List α)
  | _, [] => []
  | 0, x :: xs => [x :: xs]
  | fuel + 1, x :: xs =>
    (x :: xs.take (batchSize - 1)) ::
      createBatchesGo batchSize fuel (xs.drop (batchSize - 1))

/-- Embeds `performance.createBatches`: split into consecutive chunks of
`batchSize` (the JS loop advances `i += batchSize`). -/
def createBatches {α : Type} (batchSize : Nat) (items : List α) : List (List α) :=
  createBatchesGo batchSize items.length items

/-- The batch loop of `autoVerify.run`: add each batch's size to `processed`
and stop at the first batch boundary where `processed >= maxBatchSize`. -/
def runBatchLoop {α : Type} (maxBatchSize : Nat) :
    List (List α) → Nat → Nat
  | [], processed => processed
  | b :: rest, processed =>
    let p := processed + b.length
    if maxBatchSize ≤ p then p else runBatchLoop maxBatchSize rest p

/-- Total identities processed by one scheduled run over `users`
(config: `performance.batchSize`, `autoVerify.maxBatchSize`). -/
def runProcessedCount {α : Type} (users : List α)
    (batchSize maxBatchSize : Nat) : Nat :=
  runBatchLoop maxBatchSize (createBatches batchSize users) 0

/-! Concrete fixtures used by witnesses and counterexamples. -/

/-- A configured contract target. -/
def contract1 : Contract :=
  { id := "contract1", name := "Contract 1", address := "0xc1", roleId := "role1" }

/-- An internal transaction touching `contract1` with parent hash `h`. -/
def txTo (h : String) : Tx :=
  { toAddr := some "0xc1", fromAddr := none, contractAddress := none,
    transactionHash := some h, hash := some h, blockNumber := some "5" }

/-- Evidence bundle with three unique matching transactions. -/
def fetch3 : FetchResult :=
  { success := true, transactions := [txTo "h1", txTo "h2", txTo "h3"], error := none }

/-- Evidence bundle with two unique matching transactions. -/
def fetch2 : FetchResult :=
  { success := true, transactions := [txTo "h1", txTo "h2"], error := none }

/-- A user row freshly linked by `d1`, nothing verified. -/
def user0 : UserRec :=
  { discordId := "d1", discordUsername := some "alice", discordTag := none,
    linkedAt := "t0", lastCheckedAt := none, attempts := 0, roles := [],
    verifications := [] }

/-- Store holding only `user0` under wallet `0xaa`. -/
def db0 : Db := [("0xaa", user0)]

/-- Row `user0` with `contract1` already verified. -/
def userV : UserRec :=
  { user0 with verifications :=
      [("contract1",
        { verified := true, txHash := some "h1", blockNumber := some "5",
          txnCount := 3, verifiedAt := "t1" })] }

/-- Store in which wallet `0xaa` already satisfied `contract1`. -/
def dbV : Db := [("0xaa", userV)]

/-- Successful fresh verification result for `contract1`. -/
def rOk : VerifyResult :=
  { success := true, contractId := "contract1", contractName := "Contract 1",
    contractAddress := "0xc1", roleId := "role1", txnCount := 3, error := none,
    hash := some "h1", blockNumber := some "5" }

/-- Failed verification result for `contract1` (fetch failure shape). -/
def rFail : VerifyResult :=
  { success := false, contractId := "contract1", contractName := "Contract 1",
    contractAddress := "0xc1", roleId := "role1", txnCount := 0,
    error := some "API error - retry later", hash := none, blockNumber := none }

/-- Guild role cache with the one configured role. -/
def guildRoles0 : List (String × String) := [("role1", "Role 1")]

/-- Loop state at the start of a verify command for wallet `0xaa` whose
record is already satisfied but whose member holds no roles. -/
def stV : ExecState :=
  { db := dbV, memberRoles := [], newlyVerified := [], alreadyVerified := [],
    failedVerifications := [] }

/-- Attempt oracle: every attempt answers HTTP 503. -/
def attemptsAll503 : Nat → Attempt := fun _ => Attempt.httpError 503

/-- Healthy payload: `status: "1"` with an empty result list. -/
def payloadEmpty : ApiPayload := { status := "1", message := none, result := some [] }

/-- Attempt oracle: a 404 on the first attempt, then success. -/
def attempts404ThenOk : Nat → Attempt := fun i =>
  if i = 0 then Attempt.httpError 404 else Attempt.success payloadEmpty

/-- Provider error payload: a non-`"1"` status whose message happens to be
the zero-evidence text. -/
def payloadErr : ApiPayload :=
  { status := "2", message := some "No transactions found", result := none }

/-- Zero-evidence payload: `status: "0"` / `No transactions found`. -/
def payloadZero : ApiPayload :=
  { status := "0", message := some "No transactions found", result := none }

/-- The identity-specific explorer query URL for wallet `0xaaa`. -/
def urlW : String := "api?module=account&action=txlistinternal&address=0xaaa"


/-- Classifier for attempts the retry loop's status check treats as
retriable (an HTTP response with a status in `RETRIABLE_STATUS_CODES`). -/
def isRetriableAttempt : Attempt → Bool
  | Attempt.httpError code => RETRIABLE_STATUS_CODES.contains code
  | _ => false

/-- Attempt oracle: every attempt throws a network timeout. -/
def attemptsTimeout : Nat → Attempt := fun _ => Attempt.exn "network timeout"

/-- Loop state at the start of a verify command for wallet `0xaa` with
nothing verified yet and no member roles. -/
def st0 : ExecState :=
  { db := db0, memberRoles := [], newlyVerified := [], alreadyVerified := [],
    failedVerifications := [] }

/-- Fetch outcome seen by the verifiers when the provider answers with the
provider-error payload `payloadErr`. -/
def fetchProviderErr : FetchResult :=
  (getWalletInternalTransactions [] urlW 0 3600000
    (fun _ => Attempt.success payloadErr) 3).1

/-- Fetch outcome when the provider answers the genuine zero-evidence
payload `payloadZero`. -/
def fetchZeroEvidence : FetchResult :=
  (getWalletInternalTransactions [] urlW 0 3600000
    (fun _ => Attempt.success payloadZero) 3).1

/-- States of the link store reachable through the bot's mutating
operations: links made through the `/link` command (behind the address
format guard), the verification recorders, profile updates, role tracking,
bookkeeping timestamps and attempt counters, and administrative removal. -/
inductive Reach : Db → Prop where
  | empty : Reach []
  | link (db : Db) (d w : String) (un tg : Option String) (now : String) :
      Reach db → Reach (linkCommand db d w un tg now).2.1
  | record (db : Db) (w c : String) (th bn : Option String)
      (rid : Option String) (t : Nat) (now : String) :
      Reach db → Reach (recordVerification db w c th bn rid t now).2
  | info (db : Db) (w un tg : String) :
      Reach db → Reach (updateUserInfo db w un tg).2
  | addRole (db : Db) (w rid : String) :
      Reach db → Reach (addUserRole db w rid).2
  | checked (db : Db) (w now : String) :
      Reach db → Reach (updateLastChecked db w now)
  | bumpAttempts (db : Db) (w : String) :
      Reach db → Reach (incrementAttempts db w)
  | remove (db : Db) (w : String) :
      Reach db → Reach (removeUser db w)

/-- The bijective-link invariant: wallet keys are pairwise distinct, the
bound Discord ids are pairwise distinct, and no stored wallet key is the
empty string (every key passed the `/link` address-format guard). -/
def LinkInvariant (db : Db) : Prop :=
  (db.map Prod.fst).Nodup ∧
  (db.map (fun p => p.2.discordId)).Nodup ∧
  ∀ p ∈ db, p.1 ≠ ""

/-- A store reached by one valid link of account `d1`. -/
def dbW : Db :=
  (linkCommand [] "d1" "0xAAAAAAAAAAAAAAAAAAAAAAAAAAAAAAAAAAAAAAAA"
    none none "t0").2.1

/-! Basic lemmas about the JS-map operations. -/

theorem getKey_setKey_self {α : Type} (l : List (String × α)) (k : String) (v : α) :
    getKey (setKey l k v) k = some v := by
  induction l with
  | nil => simp [setKey, getKey]
  | cons p rest ih =>
    obtain ⟨k', v'⟩ := p
    by_cases h : k' = k
    · simp [setKey, h, getKey]
    · simp [setKey, h, getKey, ih]

theorem getKey_setKey_ne {α : Type} (l : List (String × α)) (k k0 : String) (v : α)
    (h : k0 ≠ k) : getKey (setKey l k v) k0 = getKey l k0 := by
  induction l with
  | nil => simp [setKey, getKey, Ne.symm h]
  | cons p rest ih =>
    obtain ⟨k', v'⟩ := p
    by_cases hk : k' = k
    · subst hk
      simp [setKey, getKey, Ne.symm h]
    · simp only [setKey, if_neg hk, getKey]
      by_cases hk0 : k' = k0
      · simp [hk0]
      · simp [hk0, ih]

theorem getKey_setKey_isSome {α : Type} (l : List (String × α)) (k k0 : String)
    (v : α) (h : (getKey l k0).isSome = true) :
    (getKey (setKey l k v) k0).isSome = true := by
  by_cases hk : k0 = k
  · subst hk; simp [getKey_setKey_self]
  · rw [getKey_setKey_ne l k k0 v hk]; exact h

/-! Monotonicity of `isVerified` under the store-mutating operations. -/


theorem isVerified_recordVerification_mono (db : Db) (w c w1 c1 : String)
    (th bn : Option String) (rid : Option String) (t : Nat) (now : String)
    (h : isVerified db w c = true) :
    isVerified (recordVerification db w1 c1 th bn rid t now).2 w c = true := by
  unfold recordVerification
  cases hu : getKey db (toLowerStr w1) with
  | none => simp only [hu]; exact h
  | some u =>
    simp only [hu]
    unfold isVerified at h ⊢
    by_cases hw : toLowerStr w = toLowerStr w1
    · rw [hw] at h ⊢
      simp only [hu] at h
      simp only [getKey_setKey_self]
      by_cases hc : c = c1
      · subst hc
        simp only [getKey_setKey_self]
      · rw [getKey_setKey_ne _ _ _ _ hc]
        exact h
    · rw [getKey_setKey_ne _ _ _ _ hw]
      exact h

theorem isVerified_updateLastChecked (db : Db) (w1 now w c : String) :
    isVerified (updateLastChecked db w1 now) w c = isVerified db w c := by
  unfold updateLastChecked
  cases hu : getKey db (toLowerStr w1) with
  | none => rfl
  | some u =>
    simp only [hu]
    unfold isVerified
    by_cases hw : toLowerStr w = toLowerStr w1
    · rw [hw]
      simp only [getKey_setKey_self, hu]
    · rw [getKey_setKey_ne _ _ _ _ hw]

theorem record_sets_isVerified (db : Db) (w c : String) (th bn : Option String)
    (rid : Option String) (t : Nat) (now : String)
    (hw : (getKey db (toLowerStr w)).isSome = true) :
    isVerified (recordVerification db w c th bn rid t now).2 w c = true := by
  unfold recordVerification
  cases hu : getKey db (toLowerStr w) with
  | none => rw [hu] at hw; simp at hw
  | some u =>
    simp only [hu]
    unfold isVerified
    simp only [getKey_setKey_self]

theorem getKey_recordVerification_isSome (db : Db) (k w1 c1 : String)
    (th bn : Option String) (rid : Option String) (t : Nat) (now : String)
    (h : (getKey db k).isSome = true) :
    (getKey (recordVerification db w1 c1 th bn rid t now).2 k).isSome = true := by
  unfold recordVerification
  cases hu : getKey db (toLowerStr w1) with
  | none => simp only [hu]; exact h
  | some u =>
    simp only [hu]
    exact getKey_setKey_isSome _ _ _ _ h

theorem execStep_db_cases (g : List (String × String)) (wa n : String) (ok : Bool)
    (st : ExecState) (r : VerifyResult) :
    (execStep g wa n ok st r).db = st.db ∨
    (execStep g wa n ok st r).db =
      (recordVerification st.db wa r.contractId r.hash r.blockNumber
        (some r.roleId) r.txnCount n).2 := by
  simp only [execStep]
  by_cases h1 : isVerified st.db wa r.contractId = true
  · rw [if_pos h1]; left; rfl
  · rw [if_neg h1]
    by_cases h2 : r.success = true
    · rw [if_pos h2]
      by_cases h3 :
          ((getKey g r.roleId).isSome && !(st.memberRoles.contains r.roleId)) = true
      · rw [if_pos h3]
        by_cases h4 : ok = true
        · rw [if_pos h4]; right; rfl
        · rw [if_neg h4]; right; rfl
      · rw [if_neg h3]
        by_cases h5 : st.memberRoles.contains r.roleId = true
        · rw [if_pos h5]; right; rfl
        · rw [if_neg h5]; right; rfl
    · rw [if_neg h2]; left; rfl

theorem isVerified_execStep_mono (g : List (String × String)) (wa n : String)
    (ok : Bool) (st : ExecState) (r : VerifyResult) (w c : String)
    (h : isVerified st.db w c = true) :
    isVerified (execStep g wa n ok st r).db w c = true := by
  rcases execStep_db_cases g wa n ok st r with he | he <;> rw [he]
  · exact h
  · exact isVerified_recordVerification_mono _ _ _ _ _ _ _ _ _ _ h

theorem getKey_execStep_isSome (g : List (String × String)) (wa n : String)
    (ok : Bool) (st : ExecState) (r : VerifyResult) (k : String)
    (h : (getKey st.db k).isSome = true) :
    (getKey (execStep g wa n ok st r).db k).isSome = true := by
  rcases execStep_db_cases g wa n ok st r with he | he <;> rw [he]
  · exact h
  · exact getKey_recordVerification_isSome _ _ _ _ _ _ _ _ _ h

theorem isVerified_execFold_mono (g : List (String × String)) (wa n : String)
    (ok : Bool) (rs : List VerifyResult) (st : ExecState) (w c : String)
    (h : isVerified st.db w c = true) :
    isVerified (rs.foldl (execStep g wa n ok) st).db w c = true := by
  induction rs generalizing st with
  | nil => exact h
  | cons r rest ih =>
    exact ih _ (isVerified_execStep_mono g wa n ok st r w c h)

theorem getKey_execFold_isSome (g : List (String × String)) (wa n : String)
    (ok : Bool) (rs : List VerifyResult) (st : ExecState) (k : String)
    (h : (getKey st.db k).isSome = true) :
    (getKey ((rs.foldl (execStep g wa n ok) st).db) k).isSome = true := by
  induction rs generalizing st with
  | nil => exact h
  | cons r rest ih =>
    exact ih _ (getKey_execStep_isSome g wa n ok st r k h)

theorem processUserStep_db_cases (wa n : String) (acc : ProcessCounts × Db)
    (r : VerifyResult) :
    (processUserStep wa n acc r).2 = acc.2 ∨
    (processUserStep wa n acc r).2 =
      (recordVerification acc.2 wa r.contractId r.hash r.blockNumber
        (some r.roleId) r.txnCount n).2 := by
  simp only [processUserStep]
  by_cases h1 : (r.success && !(isVerified acc.2 wa r.contractId)) = true
  · rw [if_pos h1]; right; rfl
  · rw [if_neg h1]
    by_cases h2 : (!r.success && !(isVerified acc.2 wa r.contractId)) = true
    · rw [if_pos h2]; left; rfl
    · rw [if_neg h2]; left; rfl

theorem isVerified_processUserStep_mono (wa n : String) (acc : ProcessCounts × Db)
    (r : VerifyResult) (w c : String) (h : isVerified acc.2 w c = true) :
    isVerified (processUserStep wa n acc r).2 w c = true := by
  rcases processUserStep_db_cases wa n acc r with he | he <;> rw [he]
  · exact h
  · exact isVerified_recordVerification_mono _ _ _ _ _ _ _ _ _ _ h

theorem getKey_processUserStep_isSome (wa n : String) (acc : ProcessCounts × Db)
    (r : VerifyResult) (k : String) (h : (getKey acc.2 k).isSome = true) :
    (getKey (processUserStep wa n acc r).2 k).isSome = true := by
  rcases processUserStep_db_cases wa n acc r with he | he <;> rw [he]
  · exact h
  · exact getKey_recordVerification_isSome _ _ _ _ _ _ _ _ _ h

theorem isVerified_processFold_mono (wa n : String) (rs : List VerifyResult)
    (acc : ProcessCounts × Db) (w c : String) (h : isVerified acc.2 w c = true) :
    isVerified (rs.foldl (processUserStep wa n) acc).2 w c = true := by
  induction rs generalizing acc with
  | nil => exact h
  | cons r rest ih =>
    exact ih _ (isVerified_processUserStep_mono wa n acc r w c h)

theorem getKey_processFold_isSome (wa n : String) (rs : List VerifyResult)
    (acc : ProcessCounts × Db) (k : String) (h : (getKey acc.2 k).isSome = true) :
    (getKey (rs.foldl (processUserStep wa n) acc).2 k).isSome = true := by
  induction rs generalizing acc with
  | nil => exact h
  | cons r rest ih =>
    exact ih _ (getKey_processUserStep_isSome wa n acc r k h)

/-- C1: once a stored verification record has `verified = true` for an
identity and target, neither a scheduled `autoVerify.processUser` pass nor an
explicit verify command over any results — including reduced, zero or failed
evidence — ever resets it to false; re-checks only add or confirm records. -/
theorem satisfied_monotonic (db : Db) (w c : String)
    (g : List (String × String)) (wallet now : String) (ok : Bool)
    (mr : List String) (results : List VerifyResult)
    (h : isVerified db w c = true) :
    isVerified (processUser db wallet now results).2 w c = true ∧
    isVerified (execVerify g wallet now ok db mr results).db w c = true := by
  constructor
  · simp only [processUser]
    rw [isVerified_updateLastChecked]
    exact isVerified_processFold_mono wallet now results _ w c h
  · simp only [execVerify]
    exact isVerified_execFold_mono g wallet now ok results _ w c h

/-- C1 witness: a store whose wallet `0xaa` has `contract1` verified stays
verified through a reconciliation that observes a failed fetch. -/
theorem satisfied_monotonic_witness :
    isVerified dbV "0xaa" "contract1" = true ∧
    (isVerified (processUser dbV "0xaa" "t9" [rFail]).2 "0xaa" "contract1" = true ∧
     isVerified (execVerify guildRoles0 "0xaa" "t9" true dbV [] [rFail]).db
       "0xaa" "contract1" = true) :=
  ⟨by decide,
   satisfied_monotonic dbV "0xaa" "contract1" guildRoles0 "0xaa" "t9" true [] [rFail]
     (by decide)⟩

/-- C6: a count-threshold target is judged satisfied this run exactly when the
unique-transaction count reaches the configured minimum (inclusive boundary). -/
theorem threshold_inclusive (fetch : FetchResult) (contract : Contract)
    (minTxns : Nat) (hf : fetch.success = true) :
    ((verifySingleContract fetch contract minTxns).success = true ↔
      minTxns ≤ countTransactionsForContract fetch.transactions contract.address) := by
  simp only [verifySingleContract]
  rw [hf]
  rw [if_neg (by decide : ¬(true = false))]
  by_cases hlt :
      countTransactionsForContract fetch.transactions contract.address < minTxns
  · rw [if_pos hlt]
    constructor
    · intro hcontra; simp at hcontra
    · intro hle; exfalso; omega
  · rw [if_neg hlt]
    constructor
    · intro _; omega
    · intro _; rfl

/-- C6 witness: with three unique matching transactions and a minimum of 3,
the target is satisfied. -/
theorem threshold_inclusive_witness :
    fetch3.success = true ∧
    ((verifySingleContract fetch3 contract1 3).success = true ↔
      3 ≤ countTransactionsForContract fetch3.transactions contract1.address) :=
  ⟨by decide, threshold_inclusive fetch3 contract1 3 (by decide)⟩

/-- C10: whenever `linkWallet` rejects a request (wallet bound to another
account, or account already holding a wallet), the user-data map is returned
unchanged and `save()` never runs. -/
theorem link_reject_atomic (db : Db) (d w : String) (un tg : Option String)
    (now : String) (h : (linkWallet db d w un tg now).1.success = false) :
    (linkWallet db d w un tg now).2.1 = db ∧
    (linkWallet db d w un tg now).2.2 = false := by
  unfold linkWallet at h ⊢
  by_cases h1 :
      db.any (fun p => p.1 == toLowerStr w && p.2.discordId != d) = true
  · rw [if_pos h1]
    exact ⟨rfl, rfl⟩
  · rw [if_neg h1] at h ⊢
    by_cases h2 : ((getWalletByDiscordId db d).getD "" == "") = true
    · rw [if_pos h2] at h
      simp at h
    · rw [if_neg h2] at h ⊢
      exact ⟨rfl, rfl⟩

/-- C10 witness: account `d1` already holds wallet `0xaa`, so linking `0xbb`
is rejected and the store and disk are untouched. -/
theorem link_reject_atomic_witness :
    (linkWallet db0 "d1" "0xbb" none none "t1").1.success = false ∧
    ((linkWallet db0 "d1" "0xbb" none none "t1").2.1 = db0 ∧
     (linkWallet db0 "d1" "0xbb" none none "t1").2.2 = false) :=
  ⟨by decide, link_reject_atomic db0 "d1" "0xbb" none none "t1" (by decide)⟩


/-! Properties of the retry loop (fetchWithRetry). -/

theorem fetchRetryGo_success (attempts : Nat → Attempt) (i rem : Nat)
    (payload : ApiPayload) (ha : attempts i = Attempt.success payload) :
    fetchRetryGo attempts i (rem + 1) = (FetchRetryOutcome.ok payload, []) := by
  simp [fetchRetryGo, ha]

theorem fetchRetryGo_http_retriable (attempts : Nat → Attempt) (i rem code : Nat)
    (ha : attempts i = Attempt.httpError code)
    (hc : RETRIABLE_STATUS_CODES.contains code = true) :
    fetchRetryGo attempts i (rem + 1) =
      ((fetchRetryGo attempts (i + 1) rem).1,
        2 ^ i * 1000 :: (fetchRetryGo attempts (i + 1) rem).2) := by
  simp only [fetchRetryGo, ha]
  rw [if_pos hc]

theorem fetchRetryGo_http_nonretriable_last (attempts : Nat → Attempt)
    (i code : Nat) (ha : attempts i = Attempt.httpError code)
    (hc : RETRIABLE_STATUS_CODES.contains code = false) :
    fetchRetryGo attempts i 1 =
      (FetchRetryOutcome.thrown ("API error: " ++ toString code), []) := by
  have hc1 : ¬(RETRIABLE_STATUS_CODES.contains code = true) := by
    rw [hc]; exact Bool.false_ne_true
  simp only [fetchRetryGo, ha]
  rw [if_neg hc1]
  simp

theorem fetchRetryGo_http_nonretriable_cont (attempts : Nat → Attempt)
    (i rem code : Nat) (ha : attempts i = Attempt.httpError code)
    (hc : RETRIABLE_STATUS_CODES.contains code = false) :
    fetchRetryGo attempts i (rem + 2) =
      ((fetchRetryGo attempts (i + 1) (rem + 1)).1,
        2 ^ i * 1000 :: (fetchRetryGo attempts (i + 1) (rem + 1)).2) := by
  conv_lhs => rw [fetchRetryGo]
  simp [ha, hc]

theorem fetchRetryGo_exn_last (attempts : Nat → Attempt) (i : Nat) (m : String)
    (ha : attempts i = Attempt.exn m) :
    fetchRetryGo attempts i 1 = (FetchRetryOutcome.thrown m, []) := by
  simp [fetchRetryGo, ha]

theorem fetchRetryGo_exn_cont (attempts : Nat → Attempt) (i rem : Nat)
    (m : String) (ha : attempts i = Attempt.exn m) :
    fetchRetryGo attempts i (rem + 2) =
      ((fetchRetryGo attempts (i + 1) (rem + 1)).1,
        2 ^ i * 1000 :: (fetchRetryGo attempts (i + 1) (rem + 1)).2) := by
  conv_lhs => rw [fetchRetryGo]
  simp [ha]

theorem delays_cons_eq (i n1 : Nat) :
    2 ^ i * 1000 :: (List.range n1).map (fun j => 2 ^ (i + 1 + j) * 1000) =
      (List.range (n1 + 1)).map (fun j => 2 ^ (i + j) * 1000) := by
  rw [List.range_succ_eq_map, List.map_cons, List.map_map]
  refine congrArg₂ List.cons ?_ ?_
  · rw [Nat.add_zero]
  · refine List.map_congr_left fun j _ => ?_
    simp only [Function.comp]
    have hadd : i + 1 + j = i + (j + 1) := by omega
    rw [hadd]

theorem fetchRetryGo_delays (attempts : Nat → Attempt) :
    ∀ (rem i : Nat), ∃ numRetried, numRetried ≤ rem ∧
      (fetchRetryGo attempts i rem).2 =
        (List.range numRetried).map (fun j => 2 ^ (i + j) * 1000) := by
  intro rem
  induction rem with
  | zero => intro i; exact ⟨0, Nat.le_refl 0, rfl⟩
  | succ rem ih =>
    intro i
    cases ha : attempts i with
    | success payload =>
      exact ⟨0, Nat.zero_le _,
        by rw [fetchRetryGo_success attempts i rem payload ha]; simp⟩
    | httpError code =>
      by_cases hc : RETRIABLE_STATUS_CODES.contains code = true
      · obtain ⟨n1, hn1, heq⟩ := ih (i + 1)
        refine ⟨n1 + 1, by omega, ?_⟩
        rw [fetchRetryGo_http_retriable attempts i rem code ha hc]
        show 2 ^ i * 1000 :: (fetchRetryGo attempts (i + 1) rem).2 = _
        rw [heq]
        exact delays_cons_eq i n1
      · have hc2 : RETRIABLE_STATUS_CODES.contains code = false := by
          cases h : RETRIABLE_STATUS_CODES.contains code
          · rfl
          · exact absurd h hc
        by_cases h0 : rem = 0
        · subst h0
          exact ⟨0, Nat.zero_le _,
            by rw [fetchRetryGo_http_nonretriable_last attempts i code ha hc2]; simp⟩
        · obtain ⟨rem1, rfl⟩ : ∃ rem1, rem = rem1 + 1 := ⟨rem - 1, by omega⟩
          obtain ⟨n1, hn1, heq⟩ := ih (i + 1)
          refine ⟨n1 + 1, by omega, ?_⟩
          rw [fetchRetryGo_http_nonretriable_cont attempts i rem1 code ha hc2]
          show 2 ^ i * 1000 :: (fetchRetryGo attempts (i + 1) (rem1 + 1)).2 = _
          rw [heq]
          exact delays_cons_eq i n1
    | exn message =>
      by_cases h0 : rem = 0
      · subst h0
        exact ⟨0, Nat.zero_le _,
          by rw [fetchRetryGo_exn_last attempts i message ha]; simp⟩
      · obtain ⟨rem1, rfl⟩ : ∃ rem1, rem = rem1 + 1 := ⟨rem - 1, by omega⟩
        obtain ⟨n1, hn1, heq⟩ := ih (i + 1)
        refine ⟨n1 + 1, by omega, ?_⟩
        rw [fetchRetryGo_exn_cont attempts i rem1 message ha]
        show 2 ^ i * 1000 :: (fetchRetryGo attempts (i + 1) (rem1 + 1)).2 = _
        rw [heq]
        exact delays_cons_eq i n1

theorem fetchRetryGo_exhausted (attempts : Nat → Attempt) :
    ∀ (rem i : Nat),
      (∀ j, i ≤ j → j < i + rem → isRetriableAttempt (attempts j) = true) →
      (fetchRetryGo attempts i rem).1 = FetchRetryOutcome.exhausted := by
  intro rem
  induction rem with
  | zero => intro i _; rfl
  | succ rem ih =>
    intro i hall
    have hi : isRetriableAttempt (attempts i) = true :=
      hall i (Nat.le_refl i) (by omega)
    cases ha : attempts i with
    | success payload => rw [ha] at hi; simp [isRetriableAttempt] at hi
    | exn message => rw [ha] at hi; simp [isRetriableAttempt] at hi
    | httpError code =>
      rw [ha] at hi
      simp only [isRetriableAttempt] at hi
      rw [fetchRetryGo_http_retriable attempts i rem code ha hi]
      exact ih (i + 1) (fun j hj1 hj2 => hall j (by omega) (by omega))

theorem fetchRetryGo_exn_surfaces (attempts : Nat → Attempt) (m : String) :
    ∀ (rem i : Nat), 1 ≤ rem →
      (∀ j, i ≤ j → j < i + rem → attempts j = Attempt.exn m) →
      (fetchRetryGo attempts i rem).1 = FetchRetryOutcome.thrown m := by
  intro rem
  induction rem with
  | zero => intro i h; omega
  | succ rem ih =>
    intro i _ hall
    have ha : attempts i = Attempt.exn m := hall i (Nat.le_refl i) (by omega)
    by_cases h0 : rem = 0
    · subst h0
      rw [fetchRetryGo_exn_last attempts i m ha]
    · obtain ⟨rem1, rfl⟩ : ∃ rem1, rem = rem1 + 1 := ⟨rem - 1, by omega⟩
      rw [fetchRetryGo_exn_cont attempts i rem1 m ha]
      exact ih (i + 1) (by omega) (fun j hj1 hj2 => hall j (by omega) (by omega))

/-- C4 (amended): every upstream call makes at most `retries` attempts, and
the j-th backoff delay is `1000 * 2 ^ j`; a run whose attempts are all
retriable HTTP statuses ends as `undefined` (no error is surfaced); a
non-transient failure (here HTTP 404) is also retried while attempts remain,
the call succeeding if a later attempt succeeds; only when every attempt
throws is the last error surfaced to the caller. -/
theorem fetch_retry_amended (attempts : Nat → Attempt) (retries : Nat) :
    (∃ numRetried, numRetried ≤ retries ∧
      (fetchWithRetry attempts retries).2 =
        (List.range numRetried).map (fun j => 2 ^ j * 1000)) ∧
    ((∀ j, j < retries → isRetriableAttempt (attempts j) = true) →
      (fetchWithRetry attempts retries).1 = FetchRetryOutcome.exhausted) ∧
    (∀ code payload, attempts 0 = Attempt.httpError code →
      RETRIABLE_STATUS_CODES.contains code = false →
      attempts 1 = Attempt.success payload → 2 ≤ retries →
      (fetchWithRetry attempts retries).1 = FetchRetryOutcome.ok payload) ∧
    (∀ m, 1 ≤ retries → (∀ j, j < retries → attempts j = Attempt.exn m) →
      (fetchWithRetry attempts retries).1 = FetchRetryOutcome.thrown m) := by
  refine ⟨?_, ?_, ?_, ?_⟩
  · obtain ⟨n1, hn1, heq⟩ := fetchRetryGo_delays attempts retries 0
    refine ⟨n1, hn1, ?_⟩
    rw [fetchWithRetry, heq]
    refine List.map_congr_left fun j _ => ?_
    rw [Nat.zero_add]
  · intro hall
    exact fetchRetryGo_exhausted attempts retries 0
      (fun j hj1 hj2 => hall j (by omega))
  · intro code payload h0 hc h1 hr
    obtain ⟨k, rfl⟩ : ∃ k, retries = k + 2 := ⟨retries - 2, by omega⟩
    rw [fetchWithRetry, fetchRetryGo_http_nonretriable_cont attempts 0 k code h0 hc]
    show (fetchRetryGo attempts 1 (k + 1)).1 = _
    rw [fetchRetryGo_success attempts 1 k payload h1]
  · intro m hr hall
    exact fetchRetryGo_exn_surfaces attempts m retries 0 hr
      (fun j hj1 hj2 => hall j (by omega))

/-- C4 witness: three attempts that all throw a timeout surface the thrown
error to the caller. -/
theorem fetch_retry_amended_witness :
    (1 ≤ 3 ∧ ∀ j, j < 3 → attemptsTimeout j = Attempt.exn "network timeout") ∧
    (fetchWithRetry attemptsTimeout 3).1 =
      FetchRetryOutcome.thrown "network timeout" :=
  ⟨⟨by decide, by decide⟩,
   (fetch_retry_amended attemptsTimeout 3).2.2.2 "network timeout"
     (by decide) (by decide)⟩

/-- C4 counterexample: the claim says a non-transient failure (4xx other
than 429) fails immediately without any retry; in the code a 404 on the
first attempt is caught by the loop's own catch and retried — here the call
ends successfully on the second attempt after one backoff delay. -/
theorem fetch_retry_counterexample :
    RETRIABLE_STATUS_CODES.contains 404 = false ∧
    attempts404ThenOk 0 = Attempt.httpError 404 ∧
    fetchWithRetry attempts404ThenOk 3 =
      (FetchRetryOutcome.ok payloadEmpty, [1000]) := by
  refine ⟨by decide, by decide, ?_⟩
  decide

/-- C7 (code bug): after three retriable 503 failures `fetchWithRetry`
returns undefined instead of an error, `fetchWithCache` stores
`{data: undefined}` under the identity's query url, and an immediately
following check is answered from that stale entry — even against a provider
that would now succeed — so the failed fetch is negatively cached for the
whole TTL.  A thrown error, by contrast, leaves the cache untouched. -/
theorem negative_caching_bug :
    (fetchWithRetry attemptsAll503 3).1 = FetchRetryOutcome.exhausted ∧
    getKey (fetchWithCache [] urlW 1000 3600000 attemptsAll503 3).2 urlW =
      some { data := none, timestamp := 1000 } ∧
    (fetchWithCache (fetchWithCache [] urlW 1000 3600000 attemptsAll503 3).2
        urlW 1001 3600000 (fun _ => Attempt.success payloadEmpty) 3).1 =
      Except.ok none ∧
    (fetchWithCache [] urlW 1000 3600000 attemptsTimeout 3).2 = [] :=
  ⟨rfl, rfl, rfl, rfl⟩

/-! Properties of the scheduled run's per-run cap. -/

theorem runBatchLoop_le {α : Type} (maxB bs : Nat) :
    ∀ (chunks : List (List α)) (p : Nat),
      (∀ b ∈ chunks, b.length ≤ bs) → p ≤ maxB - 1 →
      runBatchLoop maxB chunks p ≤ maxB - 1 + bs := by
  intro chunks
  induction chunks with
  | nil =>
    intro p _ hp
    simp only [runBatchLoop]
    omega
  | cons b rest ih =>
    intro p hall hp
    have hb : b.length ≤ bs := hall b (List.mem_cons_self b rest)
    simp only [runBatchLoop]
    by_cases hstop : maxB ≤ p + b.length
    · rw [if_pos hstop]; omega
    · rw [if_neg hstop]
      exact ih (p + b.length)
        (fun b1 hb1 => hall b1 (List.mem_cons_of_mem b hb1)) (by omega)

theorem createBatchesGo_mem_length_le {α : Type} (bs : Nat) (hbs : 1 ≤ bs) :
    ∀ (fuel : Nat) (l : List α), l.length ≤ fuel →
      ∀ b ∈ createBatchesGo bs fuel l, b.length ≤ bs := by
  intro fuel
  induction fuel with
  | zero =>
    intro l hl b hb
    cases l with
    | nil => simp [createBatchesGo] at hb
    | cons x xs => simp at hl
  | succ fuel ih =>
    intro l hl b hb
    cases l with
    | nil => simp [createBatchesGo] at hb
    | cons x xs =>
      rw [createBatchesGo] at hb
      rcases List.mem_cons.mp hb with h | h
      · subst h
        simp only [List.length_cons, List.length_take]
        omega
      · refine ih (xs.drop (bs - 1)) ?_ b h
        simp only [List.length_drop]
        simp only [List.length_cons] at hl
        omega

theorem createBatches_mem_length_le {α : Type} (bs : Nat) (hbs : 1 ≤ bs)
    (l : List α) : ∀ b ∈ createBatches bs l, b.length ≤ bs :=
  createBatchesGo_mem_length_le bs hbs l.length l (Nat.le_refl _)

/-- C9 (amended): the per-run cap is enforced only at batch boundaries —
one scheduled run processes at most `maxBatchSize - 1 + batchSize`
identities (it can exceed the cap by up to `batchSize - 1`, finishing the
batch in flight), and once the cap is met at a batch boundary no further
batch is taken. -/
theorem batch_cap_amended {α : Type} (users : List α)
    (batchSize maxBatchSize : Nat) (hbs : 1 ≤ batchSize) :
    runProcessedCount users batchSize maxBatchSize ≤
      maxBatchSize - 1 + batchSize ∧
    ∀ (b : List α) (rest : List (List α)) (p : Nat),
      maxBatchSize ≤ p + b.length →
      runBatchLoop maxBatchSize (b :: rest) p = p + b.length := by
  constructor
  · exact runBatchLoop_le maxBatchSize batchSize (createBatches batchSize users) 0
      (createBatches_mem_length_le batchSize hbs users)
      (by omega)
  · intro b rest p hstop
    simp only [runBatchLoop]
    rw [if_pos hstop]

/-- C9 witness: three users in batches of 2 with cap 1 process exactly 2
identities, within the amended bound 1 - 1 + 2. -/
theorem batch_cap_amended_witness :
    1 ≤ 2 ∧
    (runProcessedCount ["0xaa", "0xbb", "0xcc"] 2 1 ≤ 1 - 1 + 2 ∧
     ∀ (b : List String) (rest : List (List String)) (p : Nat),
       1 ≤ p + b.length → runBatchLoop 1 (b :: rest) p = p + b.length) :=
  ⟨by decide, batch_cap_amended ["0xaa", "0xbb", "0xcc"] 2 1 (by decide)⟩

/-- C9 counterexample: with per-run cap `maxBatchSize = 1` and batch size 2,
a run over two identities processes both of them — the run does not stop at
the cap before taking a further identity, refuting the claim that processed
never exceeds the configured maximum. -/
theorem batch_cap_counterexample :
    runProcessedCount ["0xaa", "0xbb"] 2 1 = 2 ∧
    1 < runProcessedCount ["0xaa", "0xbb"] 2 1 := by decide

/-- C3 (amended): when the stored record is already satisfied, the verify
command classifies the target as previously-verified with a `hasRole` flag
(rendered "⚠️ (Role missing)" when absent) purely from the stored record —
the fresh evidence result is not consulted — but the whole loop state is
otherwise unchanged: the role is NOT re-granted and the store is untouched. -/
theorem drift_classification (g : List (String × String)) (wallet now : String)
    (ok : Bool) (st : ExecState) (r : VerifyResult)
    (h : isVerified st.db wallet r.contractId = true) :
    execStep g wallet now ok st r =
      { st with alreadyVerified := st.alreadyVerified ++
          [{ name := r.contractName,
             roleName := strOr (getKey g r.roleId) r.contractName,
             hasRole := st.memberRoles.contains r.roleId,
             txnCount := r.txnCount }] } ∧
    (st.memberRoles.contains r.roleId = false →
      renderAlreadyEntry
        { name := r.contractName,
          roleName := strOr (getKey g r.roleId) r.contractName,
          hasRole := st.memberRoles.contains r.roleId,
          txnCount := r.txnCount } =
        "**" ++ r.contractName ++ "** → " ++
          strOr (getKey g r.roleId) r.contractName ++ " " ++
          "⚠️ (Role missing)" ++ " (" ++ toString r.txnCount ++ " txns)") := by
  constructor
  · simp only [execStep]
    rw [if_pos h]
  · intro hr
    simp only [renderAlreadyEntry]
    rw [if_neg (by rw [hr]; exact Bool.false_ne_true)]

/-- C3 witness: wallet `0xaa` has `contract1` satisfied, the member lacks
the role, and the observed fresh evidence is a fetch failure — the command
still classifies from the stored record alone. -/
theorem drift_classification_witness :
    isVerified stV.db "0xaa" rFail.contractId = true ∧
    (execStep guildRoles0 "0xaa" "t2" true stV rFail =
        { stV with alreadyVerified := stV.alreadyVerified ++
            [{ name := rFail.contractName,
               roleName := strOr (getKey guildRoles0 rFail.roleId) rFail.contractName,
               hasRole := stV.memberRoles.contains rFail.roleId,
               txnCount := rFail.txnCount }] } ∧
      (stV.memberRoles.contains rFail.roleId = false →
        renderAlreadyEntry
          { name := rFail.contractName,
            roleName := strOr (getKey guildRoles0 rFail.roleId) rFail.contractName,
            hasRole := stV.memberRoles.contains rFail.roleId,
            txnCount := rFail.txnCount } =
          "**" ++ rFail.contractName ++ "** → " ++
            strOr (getKey guildRoles0 rFail.roleId) rFail.contractName ++ " " ++
            "⚠️ (Role missing)" ++ " (" ++ toString rFail.txnCount ++ " txns)")) :=
  ⟨by decide,
   drift_classification guildRoles0 "0xaa" "t2" true stV rFail (by decide)⟩

/-- C3 counterexample: with the record satisfied and the Discord role not
held, the verify command tags the entry "Role missing" but the member's
roles are unchanged — no role is (re)granted — and the scheduled run
attempts no grant either: the claim's "(re)grants the role" fails on both
reconciliation paths. -/
theorem drift_no_regrant_counterexample :
    stV.memberRoles.contains rOk.roleId = false ∧
    isVerified stV.db "0xaa" "contract1" = true ∧
    (execStep guildRoles0 "0xaa" "t2" true stV rOk).memberRoles = [] ∧
    (execStep guildRoles0 "0xaa" "t2" true stV rOk).alreadyVerified =
      [{ name := "Contract 1", roleName := "Role 1", hasRole := false,
         txnCount := 3 }] ∧
    (processUser dbV "0xaa" "t2" [rOk]).1.rolesAttempted = [] := by decide

/-- C5 (amended): the verify command has no distinct presentation for
transient upstream failures: every unsuccessful result for a not-yet-verified
target — upstream failure and genuine shortfall alike — is appended to the
single failedVerifications list rendered by one template under the
"❌ Not Verified" field, and the retry invitation "API error - retry later"
appears only as the default for a fetch failure whose error message is empty
or absent (otherwise the raw upstream message is displayed). -/
theorem failed_outcomes_single_class (g : List (String × String))
    (wallet now : String) (ok : Bool) (st : ExecState) (r : VerifyResult)
    (h1 : isVerified st.db wallet r.contractId = false)
    (h2 : r.success = false) :
    execStep g wallet now ok st r =
      { st with failedVerifications := st.failedVerifications ++
          [{ name := r.contractName, error := r.error,
             txnCount := r.txnCount }] } ∧
    (∀ (fetch : FetchResult) (contract : Contract) (minTxns : Nat),
      fetch.success = false →
      (verifySingleContract fetch contract minTxns).error =
        some (strOr fetch.error "API error - retry later")) := by
  constructor
  · simp only [execStep]
    rw [if_neg (by rw [h1]; exact Bool.false_ne_true),
        if_neg (by rw [h2]; exact Bool.false_ne_true)]
  · intro fetch contract minTxns hf
    simp only [verifySingleContract]
    rw [if_pos hf]

/-- C5 witness: a fetch-failure result for an unverified target lands in the
failed list with the default retry-later text. -/
theorem failed_outcomes_single_class_witness :
    (isVerified st0.db "0xaa" rFail.contractId = false ∧ rFail.success = false) ∧
    (execStep guildRoles0 "0xaa" "t2" true st0 rFail =
        { st0 with failedVerifications := st0.failedVerifications ++
            [{ name := rFail.contractName, error := rFail.error,
               txnCount := rFail.txnCount }] } ∧
     (∀ (fetch : FetchResult) (contract : Contract) (minTxns : Nat),
        fetch.success = false →
        (verifySingleContract fetch contract minTxns).error =
          some (strOr fetch.error "API error - retry later"))) :=
  ⟨⟨by decide, by decide⟩,
   failed_outcomes_single_class guildRoles0 "0xaa" "t2" true st0 rFail
     (by decide) (by decide)⟩

/-- C5 counterexample: a provider error whose message is "No transactions
found" (status "2") and a genuine zero-evidence response (status "0")
produce literally identical failed results, hence identical user-visible
entries under the same "❌ Not Verified" field — the upstream-failure
outcome and the not-yet-eligible outcome are collapsed into one message. -/
theorem error_display_counterexample :
    fetchProviderErr.success = false ∧
    fetchZeroEvidence.success = true ∧
    verifySingleContract fetchProviderErr contract1 3 =
      verifySingleContract fetchZeroEvidence contract1 3 ∧
    (verifySingleContract fetchProviderErr contract1 3).success = false ∧
    renderFailedEntry
      { name := (verifySingleContract fetchProviderErr contract1 3).contractName,
        error := (verifySingleContract fetchProviderErr contract1 3).error,
        txnCount := (verifySingleContract fetchProviderErr contract1 3).txnCount } =
      "**Contract 1**: No transactions found (0 txns found)" := by decide


/-! Infrastructure for the idempotence of reconciliation. -/

theorem getKey_updateLastChecked_isSome (db : Db) (w1 now k : String)
    (h : (getKey db k).isSome = true) :
    (getKey (updateLastChecked db w1 now) k).isSome = true := by
  unfold updateLastChecked
  cases hu : getKey db (toLowerStr w1) with
  | none => exact h
  | some u =>
    simp only [hu]
    exact getKey_setKey_isSome _ _ _ _ h

theorem execStep_already_eq (g : List (String × String)) (wa n : String)
    (ok : Bool) (st : ExecState) (r : VerifyResult)
    (hv : isVerified st.db wa r.contractId = true) :
    execStep g wa n ok st r =
      { st with alreadyVerified := st.alreadyVerified ++
          [{ name := r.contractName,
             roleName := strOr (getKey g r.roleId) r.contractName,
             hasRole := st.memberRoles.contains r.roleId,
             txnCount := r.txnCount }] } := by
  simp only [execStep]
  rw [if_pos hv]

theorem execStep_failed_eq (g : List (String × String)) (wa n : String)
    (ok : Bool) (st : ExecState) (r : VerifyResult)
    (hv : ¬(isVerified st.db wa r.contractId = true))
    (hs : ¬(r.success = true)) :
    execStep g wa n ok st r =
      { st with failedVerifications := st.failedVerifications ++
          [{ name := r.contractName, error := r.error,
             txnCount := r.txnCount }] } := by
  simp only [execStep]
  rw [if_neg hv, if_neg hs]

theorem execStep_success_db (g : List (String × String)) (wa n : String)
    (ok : Bool) (st : ExecState) (r : VerifyResult)
    (hv : ¬(isVerified st.db wa r.contractId = true)) (hs : r.success = true) :
    (execStep g wa n ok st r).db =
      (recordVerification st.db wa r.contractId r.hash r.blockNumber
        (some r.roleId) r.txnCount n).2 := by
  simp only [execStep]
  rw [if_neg hv, if_pos hs]
  by_cases h3 :
      ((getKey g r.roleId).isSome && !(st.memberRoles.contains r.roleId)) = true
  · rw [if_pos h3]
    by_cases h4 : ok = true
    · rw [if_pos h4]
    · rw [if_neg h4]
  · rw [if_neg h3]
    by_cases h5 : st.memberRoles.contains r.roleId = true
    · rw [if_pos h5]
    · rw [if_neg h5]

theorem execStep_newly_cases (g : List (String × String)) (wa n : String)
    (ok : Bool) (st : ExecState) (r : VerifyResult) :
    (execStep g wa n ok st r).newlyVerified = st.newlyVerified ∨
    (r.success = true ∧ ∃ entry : NewEntry, entry.name = r.contractName ∧
      (execStep g wa n ok st r).newlyVerified = st.newlyVerified ++ [entry]) := by
  simp only [execStep]
  by_cases h1 : isVerified st.db wa r.contractId = true
  · rw [if_pos h1]; left; rfl
  · rw [if_neg h1]
    by_cases h2 : r.success = true
    · rw [if_pos h2]
      by_cases h3 :
          ((getKey g r.roleId).isSome && !(st.memberRoles.contains r.roleId)) = true
      · rw [if_pos h3]
        by_cases h4 : ok = true
        · rw [if_pos h4]
          right
          exact ⟨h2,
            { name := r.contractName,
              role := strOr (getKey g r.roleId) r.contractName, txHash := r.hash,
              txnCount := r.txnCount, isNew := true, error := none }, rfl, rfl⟩
        · rw [if_neg h4]
          right
          exact ⟨h2,
            { name := r.contractName,
              role := strOr (getKey g r.roleId) r.contractName, txHash := r.hash,
              txnCount := r.txnCount, isNew := false,
              error := some "Failed to assign role" }, rfl, rfl⟩
      · rw [if_neg h3]
        by_cases h5 : st.memberRoles.contains r.roleId = true
        · rw [if_pos h5]
          right
          exact ⟨h2,
            { name := r.contractName,
              role := strOr (getKey g r.roleId) r.contractName, txHash := r.hash,
              txnCount := r.txnCount, isNew := false, error := none }, rfl, rfl⟩
        · rw [if_neg h5]; left; rfl
    · rw [if_neg h2]; left; rfl

theorem execFold_success_recorded (g : List (String × String)) (wa n : String)
    (ok : Bool) (rs : List VerifyResult) (st : ExecState)
    (hw : (getKey st.db (toLowerStr wa)).isSome = true) :
    ∀ r ∈ rs, r.success = true →
      isVerified (rs.foldl (execStep g wa n ok) st).db wa r.contractId = true := by
  induction rs generalizing st with
  | nil => intro r hr; exact absurd hr (List.not_mem_nil r)
  | cons r0 rest ih =>
    intro r hr hs
    rw [List.foldl_cons]
    rcases List.mem_cons.mp hr with rfl | hmem
    · have h1 : isVerified (execStep g wa n ok st r).db wa r.contractId = true := by
        by_cases hv : isVerified st.db wa r.contractId = true
        · exact isVerified_execStep_mono g wa n ok st r wa r.contractId hv
        · rw [execStep_success_db g wa n ok st r hv hs]
          exact record_sets_isVerified st.db wa r.contractId r.hash r.blockNumber
            (some r.roleId) r.txnCount n hw
      exact isVerified_execFold_mono g wa n ok rest _ wa r.contractId h1
    · exact ih (execStep g wa n ok st r0)
        (getKey_execStep_isSome g wa n ok st r0 _ hw) r hmem hs

theorem execStep_already_superset (g : List (String × String)) (wa n : String)
    (ok : Bool) (st : ExecState) (r : VerifyResult) :
    ∀ a ∈ st.alreadyVerified, a ∈ (execStep g wa n ok st r).alreadyVerified := by
  intro a ha
  simp only [execStep]
  by_cases h1 : isVerified st.db wa r.contractId = true
  · rw [if_pos h1]
    exact List.mem_append.mpr (Or.inl ha)
  · rw [if_neg h1]
    by_cases h2 : r.success = true
    · rw [if_pos h2]
      by_cases h3 :
          ((getKey g r.roleId).isSome && !(st.memberRoles.contains r.roleId)) = true
      · rw [if_pos h3]
        by_cases h4 : ok = true
        · rw [if_pos h4]; exact ha
        · rw [if_neg h4]; exact ha
      · rw [if_neg h3]
        by_cases h5 : st.memberRoles.contains r.roleId = true
        · rw [if_pos h5]; exact ha
        · rw [if_neg h5]; exact ha
    · rw [if_neg h2]; exact ha

theorem execStep_already_entry (g : List (String × String)) (wa n : String)
    (ok : Bool) (st : ExecState) (r : VerifyResult)
    (hv : isVerified st.db wa r.contractId = true) :
    ∃ a ∈ (execStep g wa n ok st r).alreadyVerified, a.name = r.contractName := by
  rw [execStep_already_eq g wa n ok st r hv]
  exact ⟨_, List.mem_append.mpr (Or.inr (List.mem_singleton_self _)), rfl⟩

theorem execFold_all_verified (g : List (String × String)) (wa n : String)
    (ok : Bool) (rs : List VerifyResult) (st : ExecState)
    (hall : ∀ r ∈ rs, r.success = true → isVerified st.db wa r.contractId = true) :
    (rs.foldl (execStep g wa n ok) st).newlyVerified = st.newlyVerified ∧
    (rs.foldl (execStep g wa n ok) st).db = st.db ∧
    (∀ a ∈ st.alreadyVerified, a ∈ (rs.foldl (execStep g wa n ok) st).alreadyVerified) ∧
    (∀ r ∈ rs, r.success = true →
      ∃ a ∈ (rs.foldl (execStep g wa n ok) st).alreadyVerified,
        a.name = r.contractName) := by
  induction rs generalizing st with
  | nil =>
    exact ⟨rfl, rfl, fun a ha => ha, fun r hr => absurd hr (List.not_mem_nil r)⟩
  | cons r0 rest ih =>
    rw [List.foldl_cons]
    have hsplit : execStep g wa n ok st r0 =
        { st with alreadyVerified := st.alreadyVerified ++
            [{ name := r0.contractName,
               roleName := strOr (getKey g r0.roleId) r0.contractName,
               hasRole := st.memberRoles.contains r0.roleId,
               txnCount := r0.txnCount }] } ∨
        execStep g wa n ok st r0 =
        { st with failedVerifications := st.failedVerifications ++
            [{ name := r0.contractName, error := r0.error,
               txnCount := r0.txnCount }] } := by
      by_cases hv : isVerified st.db wa r0.contractId = true
      · exact Or.inl (execStep_already_eq g wa n ok st r0 hv)
      · by_cases hs0 : r0.success = true
        · exact absurd (hall r0 (List.mem_cons_self r0 rest) hs0) hv
        · exact Or.inr (execStep_failed_eq g wa n ok st r0 hv hs0)
    have hstep_n : (execStep g wa n ok st r0).newlyVerified = st.newlyVerified := by
      rcases hsplit with h | h <;> rw [h]
    have hstep_db : (execStep g wa n ok st r0).db = st.db := by
      rcases hsplit with h | h <;> rw [h]
    obtain ⟨hn, hdb, hmono, hex⟩ := ih (execStep g wa n ok st r0)
      (by intro r hr hs
          rw [hstep_db]
          exact hall r (List.mem_cons_of_mem r0 hr) hs)
    refine ⟨hn.trans hstep_n, hdb.trans hstep_db, ?_, ?_⟩
    · intro a ha
      exact hmono a (execStep_already_superset g wa n ok st r0 a ha)
    · intro r hr hs
      rcases List.mem_cons.mp hr with rfl | hmem
      · have hv : isVerified st.db wa r.contractId = true :=
          hall r (List.mem_cons_self r rest) hs
        obtain ⟨a, ha, hname⟩ := execStep_already_entry g wa n ok st r hv
        exact ⟨a, hmono a ha, hname⟩
      · exact hex r hmem hs

theorem execFold_newly_origin (g : List (String × String)) (wa n : String)
    (ok : Bool) (rs : List VerifyResult) (st : ExecState) :
    ∀ e ∈ (rs.foldl (execStep g wa n ok) st).newlyVerified,
      e ∈ st.newlyVerified ∨
        ∃ r ∈ rs, r.success = true ∧ e.name = r.contractName := by
  induction rs generalizing st with
  | nil => intro e he; exact Or.inl he
  | cons r0 rest ih =>
    intro e he
    rw [List.foldl_cons] at he
    rcases ih (execStep g wa n ok st r0) e he with hin | ⟨r, hr, hs, hname⟩
    · rcases execStep_newly_cases g wa n ok st r0 with hcase | ⟨hs0, entry, hename, hcase⟩
      · rw [hcase] at hin
        exact Or.inl hin
      · rw [hcase] at hin
        rcases List.mem_append.mp hin with h1 | h1
        · exact Or.inl h1
        · right
          refine ⟨r0, List.mem_cons_self r0 rest, hs0, ?_⟩
          rw [List.mem_singleton.mp h1]
          exact hename
    · exact Or.inr ⟨r, List.mem_cons_of_mem r0 hr, hs, hname⟩

theorem processFold_success_recorded (wa n : String) (rs : List VerifyResult)
    (acc : ProcessCounts × Db)
    (hw : (getKey acc.2 (toLowerStr wa)).isSome = true) :
    ∀ r ∈ rs, r.success = true →
      isVerified (rs.foldl (processUserStep wa n) acc).2 wa r.contractId = true := by
  induction rs generalizing acc with
  | nil => intro r hr; exact absurd hr (List.not_mem_nil r)
  | cons r0 rest ih =>
    intro r hr hs
    rw [List.foldl_cons]
    rcases List.mem_cons.mp hr with rfl | hmem
    · have h1 : isVerified (processUserStep wa n acc r).2 wa r.contractId = true := by
        by_cases hv : isVerified acc.2 wa r.contractId = true
        · exact isVerified_processUserStep_mono wa n acc r wa r.contractId hv
        · have hvf : isVerified acc.2 wa r.contractId = false := by
            cases h : isVerified acc.2 wa r.contractId
            · rfl
            · exact absurd h hv
          have hcond : (r.success && !(isVerified acc.2 wa r.contractId)) = true := by
            rw [hs, hvf]; rfl
          have hstep : (processUserStep wa n acc r).2 =
              (recordVerification acc.2 wa r.contractId r.hash r.blockNumber
                (some r.roleId) r.txnCount n).2 := by
            simp only [processUserStep]
            rw [if_pos hcond]
          rw [hstep]
          exact record_sets_isVerified acc.2 wa r.contractId r.hash r.blockNumber
            (some r.roleId) r.txnCount n hw
      exact isVerified_processFold_mono wa n rest _ wa r.contractId h1
    · exact ih (processUserStep wa n acc r0)
        (getKey_processUserStep_isSome wa n acc r0 _ hw) r hmem hs

theorem processFold_all_verified (wa n : String) (rs : List VerifyResult)
    (acc : ProcessCounts × Db)
    (hall : ∀ r ∈ rs, r.success = true → isVerified acc.2 wa r.contractId = true) :
    (rs.foldl (processUserStep wa n) acc).1.newVerifications =
      acc.1.newVerifications ∧
    (rs.foldl (processUserStep wa n) acc).2 = acc.2 := by
  induction rs generalizing acc with
  | nil => exact ⟨rfl, rfl⟩
  | cons r0 rest ih =>
    rw [List.foldl_cons]
    have hstep : (processUserStep wa n acc r0).1.newVerifications =
        acc.1.newVerifications ∧ (processUserStep wa n acc r0).2 = acc.2 := by
      simp only [processUserStep]
      by_cases hs0 : r0.success = true
      · have hv := hall r0 (List.mem_cons_self r0 rest) hs0
        rw [if_neg (by rw [hs0, hv]; simp), if_neg (by rw [hv]; simp)]
        exact ⟨rfl, rfl⟩
      · have hsf : r0.success = false := by
          cases h : r0.success
          · rfl
          · exact absurd h hs0
        rw [if_neg (by rw [hsf]; simp)]
        by_cases h2 : (!r0.success && !(isVerified acc.2 wa r0.contractId)) = true
        · rw [if_pos h2]
          exact ⟨rfl, rfl⟩
        · rw [if_neg h2]
          exact ⟨rfl, rfl⟩
    obtain ⟨h1, h2⟩ := hstep
    obtain ⟨ih1, ih2⟩ := ih (processUserStep wa n acc r0)
      (by intro r hr hs; rw [h2]; exact hall r (List.mem_cons_of_mem r0 hr) hs)
    exact ⟨ih1.trans h1, ih2.trans h2⟩

/-- C2: with unchanged evidence (the same result list), a second
reconciliation of a linked wallet reports no newly-satisfied targets: the
verify command's second pass produces an empty newlyVerified list and every
target it classified newly-satisfied the first time now appears among the
already-verified entries; likewise a second scheduled processUser pass counts
zero new verifications. -/
theorem reconcile_idempotent (g : List (String × String))
    (wallet now1 now2 : String) (ok1 ok2 : Bool) (db : Db)
    (mr1 mr2 : List String) (results : List VerifyResult)
    (hw : (getKey db (toLowerStr wallet)).isSome = true) :
    (execVerify g wallet now2 ok2
        (execVerify g wallet now1 ok1 db mr1 results).db mr2
        results).newlyVerified = [] ∧
    (∀ e ∈ (execVerify g wallet now1 ok1 db mr1 results).newlyVerified,
      ∃ a ∈ (execVerify g wallet now2 ok2
          (execVerify g wallet now1 ok1 db mr1 results).db mr2
          results).alreadyVerified, a.name = e.name) ∧
    (processUser (processUser db wallet now1 results).2 wallet now2
        results).1.newVerifications = 0 := by
  have hrec1 : ∀ r ∈ results, r.success = true →
      isVerified (execVerify g wallet now1 ok1 db mr1 results).db wallet
        r.contractId = true := by
    simp only [execVerify]
    exact execFold_success_recorded g wallet now1 ok1 results _ hw
  have hrun2 := execFold_all_verified g wallet now2 ok2 results
    { db := (execVerify g wallet now1 ok1 db mr1 results).db,
      memberRoles := mr2, newlyVerified := [], alreadyVerified := [],
      failedVerifications := [] }
    (by intro r hr hs; exact hrec1 r hr hs)
  refine ⟨?_, ?_, ?_⟩
  · simpa [execVerify] using hrun2.1
  · intro e he
    rcases execFold_newly_origin g wallet now1 ok1 results _ e
        (by simpa [execVerify] using he) with hin | ⟨r, hr, hs, hname⟩
    · simp at hin
    · obtain ⟨a, ha, haname⟩ := hrun2.2.2.2 r hr hs
      refine ⟨a, by simpa [execVerify] using ha, ?_⟩
      rw [haname, hname]
  · have hprec : ∀ r ∈ results, r.success = true →
        isVerified (processUser db wallet now1 results).2 wallet
          r.contractId = true := by
      intro r hr hs
      simp only [processUser]
      rw [isVerified_updateLastChecked]
      exact processFold_success_recorded wallet now1 results _ hw r hr hs
    have hcnt := processFold_all_verified wallet now2 results
      (⟨0, 0, []⟩, (processUser db wallet now1 results).2)
      (by intro r hr hs; exact hprec r hr hs)
    simpa [processUser] using hcnt.1

/-- C2 witness: reconciling wallet `0xaa` twice on the same successful
result yields no newly-satisfied targets the second time, and the target is
confirmed as already verified. -/
theorem reconcile_idempotent_witness :
    (getKey db0 (toLowerStr "0xaa")).isSome = true ∧
    ((execVerify guildRoles0 "0xaa" "t3" true
        (execVerify guildRoles0 "0xaa" "t2" true db0 [] [rOk]).db []
        [rOk]).newlyVerified = [] ∧
     (∀ e ∈ (execVerify guildRoles0 "0xaa" "t2" true db0 [] [rOk]).newlyVerified,
        ∃ a ∈ (execVerify guildRoles0 "0xaa" "t3" true
            (execVerify guildRoles0 "0xaa" "t2" true db0 [] [rOk]).db []
            [rOk]).alreadyVerified, a.name = e.name) ∧
     (processUser (processUser db0 "0xaa" "t2" [rOk]).2 "0xaa" "t3"
        [rOk]).1.newVerifications = 0) :=
  ⟨by decide,
   reconcile_idempotent guildRoles0 "0xaa" "t2" "t3" true true db0 [] [] [rOk]
     (by decide)⟩

/-! Preservation of the bijective-link invariant. -/

theorem getKey_none_of_forall {α : Type} (l : List (String × α)) (k : String)
    (h : ∀ p ∈ l, p.1 ≠ k) : getKey l k = none := by
  induction l with
  | nil => rfl
  | cons p rest ih =>
    obtain ⟨k1, v⟩ := p
    simp only [getKey]
    rw [if_neg (h (k1, v) (List.mem_cons_self _ _))]
    exact ih (fun q hq => h q (List.mem_cons_of_mem _ hq))

theorem setKey_append_of_absent {α : Type} (l : List (String × α)) (k : String)
    (v : α) (h : ∀ p ∈ l, p.1 ≠ k) : setKey l k v = l ++ [(k, v)] := by
  induction l with
  | nil => rfl
  | cons p rest ih =>
    obtain ⟨k1, v1⟩ := p
    simp only [setKey]
    rw [if_neg (h (k1, v1) (List.mem_cons_self _ _))]
    rw [ih (fun q hq => h q (List.mem_cons_of_mem _ hq))]
    rfl

theorem map_fst_setKey_of_some {α : Type} (l : List (String × α)) (k : String)
    (u v : α) (hu : getKey l k = some u) :
    (setKey l k v).map Prod.fst = l.map Prod.fst := by
  induction l with
  | nil => cases hu
  | cons p rest ih =>
    obtain ⟨k1, v1⟩ := p
    by_cases hk : k1 = k
    · subst hk
      simp [setKey]
    · simp only [getKey, if_neg hk] at hu
      simp only [setKey, if_neg hk, List.map_cons]
      rw [ih hu]

theorem map_id_setKey_of_same (db : Db) (k : String) (u v : UserRec)
    (hu : getKey db k = some u) (hid : v.discordId = u.discordId) :
    (setKey db k v).map (fun p => p.2.discordId) =
      db.map (fun p => p.2.discordId) := by
  induction db with
  | nil => cases hu
  | cons p rest ih =>
    obtain ⟨k1, u1⟩ := p
    by_cases hk : k1 = k
    · subst hk
      rw [getKey, if_pos rfl, Option.some_inj] at hu
      subst hu
      rw [setKey, if_pos rfl]
      simp only [List.map_cons]
      rw [hid]
    · simp only [getKey, if_neg hk] at hu
      simp only [setKey, if_neg hk, List.map_cons]
      rw [ih hu]

theorem mem_setKey_of_some {α : Type} (l : List (String × α)) (k : String)
    (u v : α) (hu : getKey l k = some u) :
    ∀ p ∈ setKey l k v, p ∈ l ∨ p = (k, v) := by
  induction l with
  | nil => cases hu
  | cons q rest ih =>
    obtain ⟨k1, v1⟩ := q
    by_cases hk : k1 = k
    · subst hk
      simp only [setKey, if_pos rfl]
      intro p hp
      rcases List.mem_cons.mp hp with rfl | hmem
      · exact Or.inr rfl
      · exact Or.inl (List.mem_cons_of_mem _ hmem)
    · simp only [getKey, if_neg hk] at hu
      simp only [setKey, if_neg hk]
      intro p hp
      rcases List.mem_cons.mp hp with rfl | hmem
      · exact Or.inl (List.mem_cons_self _ _)
      · rcases ih hu p hmem with h | h
        · exact Or.inl (List.mem_cons_of_mem _ h)
        · exact Or.inr h

theorem LinkInvariant_setKey_same_id (db : Db) (k : String) (u v : UserRec)
    (hu : getKey db k = some u) (hid : v.discordId = u.discordId)
    (hk : k ≠ "") (hinv : LinkInvariant db) :
    LinkInvariant (setKey db k v) := by
  obtain ⟨h1, h2, h3⟩ := hinv
  refine ⟨?_, ?_, ?_⟩
  · rw [map_fst_setKey_of_some db k u v hu]
    exact h1
  · rw [map_id_setKey_of_same db k u v hu hid]
    exact h2
  · intro p hp
    rcases mem_setKey_of_some db k u v hu p hp with h | h
    · exact h3 p h
    · rw [h]
      exact hk

theorem mem_of_getKey_some {α : Type} (l : List (String × α)) (k : String)
    (u : α) (hu : getKey l k = some u) : (k, u) ∈ l := by
  induction l with
  | nil => cases hu
  | cons p rest ih =>
    obtain ⟨k1, v1⟩ := p
    by_cases hk : k1 = k
    · subst hk
      rw [getKey, if_pos rfl, Option.some_inj] at hu
      subst hu
      exact List.mem_cons_self _ _
    · simp only [getKey, if_neg hk] at hu
      exact List.mem_cons_of_mem _ (ih hu)

theorem LinkInvariant_setKey_existing (db : Db) (k : String) (u v : UserRec)
    (hu : getKey db k = some u) (hid : v.discordId = u.discordId)
    (hinv : LinkInvariant db) : LinkInvariant (setKey db k v) :=
  LinkInvariant_setKey_same_id db k u v hu hid
    (hinv.2.2 (k, u) (mem_of_getKey_some db k u hu)) hinv

theorem LinkInvariant_recordVerification (db : Db) (w c : String)
    (th bn : Option String) (rid : Option String) (t : Nat) (now : String)
    (hinv : LinkInvariant db) :
    LinkInvariant (recordVerification db w c th bn rid t now).2 := by
  simp only [recordVerification]
  cases hu : getKey db (toLowerStr w) with
  | none => simp only [hu]; exact hinv
  | some u =>
    simp only [hu]
    exact LinkInvariant_setKey_existing db (toLowerStr w) u _ hu rfl hinv

theorem LinkInvariant_updateUserInfo (db : Db) (w un tg : String)
    (hinv : LinkInvariant db) : LinkInvariant (updateUserInfo db w un tg).2 := by
  simp only [updateUserInfo]
  cases hu : getKey db (toLowerStr w) with
  | none => simp only [hu]; exact hinv
  | some u =>
    simp only [hu]
    exact LinkInvariant_setKey_existing db (toLowerStr w) u _ hu rfl hinv

theorem LinkInvariant_addUserRole (db : Db) (w rid : String)
    (hinv : LinkInvariant db) : LinkInvariant (addUserRole db w rid).2 := by
  simp only [addUserRole]
  cases hu : getKey db (toLowerStr w) with
  | none => simp only [hu]; exact hinv
  | some u =>
    simp only [hu]
    by_cases hc : u.roles.contains rid = true
    · rw [if_pos hc]
      exact hinv
    · rw [if_neg hc]
      exact LinkInvariant_setKey_existing db (toLowerStr w) u _ hu rfl hinv

theorem LinkInvariant_updateLastChecked (db : Db) (w now : String)
    (hinv : LinkInvariant db) : LinkInvariant (updateLastChecked db w now) := by
  simp only [updateLastChecked]
  cases hu : getKey db (toLowerStr w) with
  | none => simp only [hu]; exact hinv
  | some u =>
    simp only [hu]
    exact LinkInvariant_setKey_existing db (toLowerStr w) u _ hu rfl hinv

theorem LinkInvariant_incrementAttempts (db : Db) (w : String)
    (hinv : LinkInvariant db) : LinkInvariant (incrementAttempts db w) := by
  simp only [incrementAttempts]
  cases hu : getKey db (toLowerStr w) with
  | none => simp only [hu]; exact hinv
  | some u =>
    simp only [hu]
    exact LinkInvariant_setKey_existing db (toLowerStr w) u _ hu rfl hinv

theorem LinkInvariant_removeUser (db : Db) (w : String)
    (hinv : LinkInvariant db) : LinkInvariant (removeUser db w) := by
  obtain ⟨h1, h2, h3⟩ := hinv
  refine ⟨?_, ?_, ?_⟩
  · exact List.Nodup.sublist ((List.filter_sublist db).map Prod.fst) h1
  · exact List.Nodup.sublist
      ((List.filter_sublist db).map (fun p => p.2.discordId)) h2
  · intro p hp
    exact h3 p (List.mem_of_mem_filter hp)

theorem toLowerStr_ne_empty_of_valid (w : String)
    (h : isValidWalletFormat w = true) : toLowerStr w ≠ "" := by
  intro hcontra
  have hlen : w.length = 42 := by
    unfold isValidWalletFormat at h
    rw [Bool.and_eq_true, Bool.and_eq_true] at h
    exact eq_of_beq h.1.2
  have hmap : w.data.map Char.toLower = [] := congrArg String.data hcontra
  have hd : w.data = [] := List.map_eq_nil_iff.mp hmap
  have hlen0 : w.length = 0 := by
    simp [String.length, hd]
  omega

theorem LinkInvariant_linkCommand (db : Db) (d w : String)
    (un tg : Option String) (now : String) (hinv : LinkInvariant db) :
    LinkInvariant (linkCommand db d w un tg now).2.1 := by
  unfold linkCommand
  by_cases hval : isValidWalletFormat w = true
  · rw [if_pos hval]
    unfold linkWallet
    by_cases h1 :
        (db.any fun p => p.1 == toLowerStr w && p.2.discordId != d) = true
    · rw [if_pos h1]
      exact hinv
    · rw [if_neg h1]
      by_cases h2 : ((getWalletByDiscordId db d).getD "" == "") = true
      · rw [if_pos h2]
        have hno_id : ∀ p ∈ db, p.2.discordId ≠ d := by
          intro p hp hcontra
          have hsome : (db.find? (fun q => q.2.discordId == d)).isSome = true := by
            rw [List.find?_isSome]
            refine ⟨p, hp, ?_⟩
            rw [hcontra]
            exact beq_self_eq_true d
          obtain ⟨q, hq⟩ := Option.isSome_iff_exists.mp hsome
          have hq1 : q.1 ≠ "" := hinv.2.2 q (List.mem_of_find?_eq_some hq)
          have hwid : getWalletByDiscordId db d = some q.1 := by
            unfold getWalletByDiscordId
            rw [hq]
            rfl
          rw [hwid] at h2
          simp only [Option.getD_some] at h2
          exact hq1 (by simpa using h2)
        have hno_key : ∀ p ∈ db, p.1 ≠ toLowerStr w := by
          intro p hp hcontra
          by_cases hd : p.2.discordId = d
          · exact hno_id p hp hd
          · apply h1
            rw [List.any_eq_true]
            refine ⟨p, hp, ?_⟩
            rw [Bool.and_eq_true]
            constructor
            · rw [hcontra]
              exact beq_self_eq_true _
            · exact bne_iff_ne.mpr hd
        show LinkInvariant (setKey db (toLowerStr w)
          { discordId := d, discordUsername := un, discordTag := tg,
            linkedAt := now, lastCheckedAt := none, attempts := 0,
            roles := [], verifications := [] })
        rw [setKey_append_of_absent db (toLowerStr w) _ hno_key]
        obtain ⟨hk, hid, hne⟩ := hinv
        refine ⟨?_, ?_, ?_⟩
        · rw [List.map_append]
          refine List.Nodup.append hk (List.nodup_singleton _) ?_
          intro a ha hb
          rw [List.map_singleton, List.mem_singleton] at hb
          subst hb
          obtain ⟨p, hp, hp1⟩ := List.mem_map.mp ha
          exact hno_key p hp hp1
        · rw [List.map_append]
          refine List.Nodup.append hid (List.nodup_singleton _) ?_
          intro a ha hb
          rw [List.map_singleton, List.mem_singleton] at hb
          subst hb
          obtain ⟨p, hp, hp1⟩ := List.mem_map.mp ha
          exact hno_id p hp hp1
        · intro p hp
          rcases List.mem_append.mp hp with h | h
          · exact hne p h
          · rw [List.mem_singleton] at h
            rw [h]
            exact toLowerStr_ne_empty_of_valid w hval
      · rw [if_neg h2]
        exact hinv
  · rw [if_neg hval]
    exact hinv

theorem Reach_LinkInvariant (db : Db) (h : Reach db) : LinkInvariant db := by
  induction h with
  | empty =>
    exact ⟨List.nodup_nil, List.nodup_nil, fun p hp => absurd hp (List.not_mem_nil p)⟩
  | link db d w un tg now _ ih => exact LinkInvariant_linkCommand db d w un tg now ih
  | record db w c th bn rid t now _ ih =>
    exact LinkInvariant_recordVerification db w c th bn rid t now ih
  | info db w un tg _ ih => exact LinkInvariant_updateUserInfo db w un tg ih
  | addRole db w rid _ ih => exact LinkInvariant_addUserRole db w rid ih
  | checked db w now _ ih => exact LinkInvariant_updateLastChecked db w now ih
  | bumpAttempts db w _ ih => exact LinkInvariant_incrementAttempts db w ih
  | remove db w _ ih => exact LinkInvariant_removeUser db w ih

/-- C8: in every reachable state of the link store each (lowercased) wallet
key is bound to at most one Discord account and each Discord account to at
most one wallet, and `linkWallet` rejects both a request for a wallet bound
to a different account and a request from an account that already holds a
wallet. -/
theorem link_bijective (db : Db) (hr : Reach db) :
    (db.map Prod.fst).Nodup ∧
    (db.map (fun p => p.2.discordId)).Nodup ∧
    (∀ (d w : String) (un tg : Option String) (now k : String) (p : UserRec),
      (k, p) ∈ db → k = toLowerStr w → p.discordId ≠ d →
      (linkWallet db d w un tg now).1.success = false) ∧
    (∀ (d w : String) (un tg : Option String) (now k : String) (p : UserRec),
      (k, p) ∈ db → p.discordId = d →
      (linkWallet db d w un tg now).1.success = false) := by
  have hinv := Reach_LinkInvariant db hr
  refine ⟨hinv.1, hinv.2.1, ?_, ?_⟩
  · intro d w un tg now k p hmem hk hd
    have hany : (db.any fun q => q.1 == toLowerStr w && q.2.discordId != d) = true := by
      rw [List.any_eq_true]
      refine ⟨(k, p), hmem, ?_⟩
      rw [Bool.and_eq_true]
      constructor
      · rw [hk]
        exact beq_self_eq_true _
      · exact bne_iff_ne.mpr hd
    unfold linkWallet
    rw [if_pos hany]
  · intro d w un tg now k p hmem hd
    unfold linkWallet
    by_cases h1 :
        (db.any fun q => q.1 == toLowerStr w && q.2.discordId != d) = true
    · rw [if_pos h1]
    · rw [if_neg h1]
      have hsome : (db.find? (fun q => q.2.discordId == d)).isSome = true := by
        rw [List.find?_isSome]
        refine ⟨(k, p), hmem, ?_⟩
        show (p.discordId == d) = true
        rw [hd]
        exact beq_self_eq_true d
      obtain ⟨q, hq⟩ := Option.isSome_iff_exists.mp hsome
      have hq1 : q.1 ≠ "" := hinv.2.2 q (List.mem_of_find?_eq_some hq)
      have hwid : getWalletByDiscordId db d = some q.1 := by
        unfold getWalletByDiscordId
        rw [hq]
        rfl
      rw [hwid]
      have hcond : ¬(((some q.1).getD "" == "") = true) := by
        simp only [Option.getD_some]
        simpa using hq1
      rw [if_neg hcond]

/-- C8 witness: the store reached by one valid link satisfies the bijective
invariant and rejects conflicting link requests. -/
theorem link_bijective_witness :
    Reach dbW ∧
    ((dbW.map Prod.fst).Nodup ∧
     (dbW.map (fun p => p.2.discordId)).Nodup ∧
     (∀ (d w : String) (un tg : Option String) (now k : String) (p : UserRec),
       (k, p) ∈ dbW → k = toLowerStr w → p.discordId ≠ d →
       (linkWallet dbW d w un tg now).1.success = false) ∧
     (∀ (d w : String) (un tg : Option String) (now k : String) (p : UserRec),
       (k, p) ∈ dbW → p.discordId = d →
       (linkWallet dbW d w un tg now).1.success = false)) :=
  ⟨Reach.link [] "d1" "0xAAAAAAAAAAAAAAAAAAAAAAAAAAAAAAAAAAAAAAAA"
      none none "t0" Reach.empty,
   link_bijective dbW
     (Reach.link [] "d1" "0xAAAAAAAAAAAAAAAAAAAAAAAAAAAAAAAAAAAAAAAA"
       none none "t0" Reach.empty)⟩

end GensynBot
